import Mathlib

/-!
Verification of the graphism propagation engine (src/graphism/graph.py).

The Graph class is embedded shallowly.  Node and Edge live in
graphism/node.py and graphism/edge.py, which are not part of the reviewed
sources; their capability set is modelled from the spec (sections 3 and 6)
and every such definition is marked "Modelled from the spec".

Node names are modelled as natural numbers (the repository's own examples
use integer names).  Python dictionaries keyed by name are modelled as
association lists read through `alookup`, which returns the first binding
for a key, exactly as a dict lookup returns the unique binding.  Python
object identity is modelled by a `uid` field stamped from a creation
counter held by the graph: two Node values denote the same Python object
exactly when their uids agree.  User-supplied callbacks and
transmission-probability functions are opaque to the graph state; they are
modelled by numeric tags, and the wrappers installed by `set_infection` /
`set_recovery` additionally report the list of nodes the caller-supplied
callback was invoked on.
-/

namespace Graphism

/-- Modelled from the spec: graphism/edge.py is not in the reviewed sources.
An Edge is a record of multiplicity (parallel-edge count), an optional type
tag and a numeric weight (spec section 3). -/
structure Edge' where
  multiplicity : Nat
  type_ : Option Nat
  weight_ : Rat
deriving DecidableEq

/-- Modelled from the spec: graphism/node.py is not in the reviewed sources.
A Node holds a name, an adjacency mapping from neighbor name to Edge and a
bound transmission-probability function (modelled as a tag).  `uid` models
Python object identity (spec section 3). -/
structure Node' where
  uid : Nat
  name : Nat
  tp : Nat
  edges : List (Nat × Edge')
deriving DecidableEq

/-- First binding for a key in an association list: the model of a Python
dict lookup (`d[k]` / `d.get(k)`). -/
def alookup {α : Type} (k : Nat) : List (Nat × α) → Option α
  | [] => none
  | (k', v) :: rest => if k = k' then some v else alookup k rest

/-- Modelled from the spec: Node.degree() is the sum of the multiplicities
of the node's edges (spec sections 3 and 6). -/
def degree (n : Node') : Nat :=
  (n.edges.map (fun ce => ce.2.multiplicity)).sum

/-- The default transmission-probability function: the inner `tp` closure of
Graph.__init__ (graph.py lines 36-43).  It looks the edge up in the
parent's adjacency (a KeyError, modelled as `none`, if absent), then
returns 0.0 when the parent's degree is 0 and multiplicity/degree
otherwise. -/
def tp (from_node to_node : Node') : Option Rat :=
  match alookup to_node.name from_node.edges with
  | none => none
  | some edge =>
      let multiplicity := edge.multiplicity
      let d := degree from_node
      if d = 0 then some 0
      else some ((multiplicity : Rat) / (d : Rat))

/-- Increment the multiplicity of the binding for a given neighbor name,
leaving the rest of the adjacency unchanged. -/
def incrMult (cname : Nat) : List (Nat × Edge') → List (Nat × Edge')
  | [] => []
  | (k, e) :: rest =>
      if k = cname then (k, { e with multiplicity := e.multiplicity + 1 }) :: rest
      else (k, e) :: incrMult cname rest

/-- Modelled from the spec: Node.add_child creates an edge of multiplicity 1
on the first call for a given child name and increments the multiplicity on
subsequent calls (spec sections 3 and 6). -/
def addChild (p : Node') (c : Node') (type_ : Option Nat) (weight_ : Rat) : Node' :=
  match alookup c.name p.edges with
  | some _ => { p with edges := incrMult c.name p.edges }
  | none => { p with edges := p.edges ++ [(c.name, ⟨1, type_, weight_⟩)] }

/-- Tag naming the graph's default transmission-probability closure (the
inner `tp` of Graph.__init__). -/
def defaultTpTag : Nat := 0

/-- Tag naming the no-op callback `lambda n: None` that Graph.__init__
installs through set_infection and set_recovery. -/
def noopCB : Nat := 0

/-- The Graph state: `nodes` is the name-keyed registry (the sole strong
owner of Node instances), `infected` the name keys of the infected index
(its values are the registry instances with those names), `infection` /
`recovery` the tags of the installed caller-supplied callbacks (`none`
models the class-level `None` before installation),
`transmission_probability` the default function's tag, `nextUid` the
object-identity counter. -/
structure Graph' where
  nodes : List (Nat × Node')
  infected : List Nat
  transmission_probability : Nat
  infection : Option Nat
  recovery : Option Nat
  nextUid : Nat
deriving DecidableEq

/-- Replace the value bound to a key, if present: the model of a Python
dict assignment `d[k] = v` to an existing key. -/
def writeThrough (k : Nat) (v : Node') : List (Nat × Node') → List (Nat × Node')
  | [] => []
  | (k', v') :: rest =>
      if k = k' then (k', v) :: rest else (k', v') :: writeThrough k v rest

/-- Graph.get_node_by_name (graph.py lines 113-121). -/
def get_node_by_name (g : Graph') (name : Nat) : Option Node' :=
  alookup name g.nodes

/-- Graph.add_node (graph.py lines 123-133): registers the node only when
its name is not yet a key, and returns the node given as argument. -/
def add_node (g : Graph') (node : Node') : Graph' × Node' :=
  (if (alookup node.name g.nodes).isSome then g
   else { g with nodes := g.nodes ++ [(node.name, node)] },
   node)

/-- Graph.add_edge_by_node_sequence (graph.py lines 55-79), unfolded over
the four possible outcomes of the two registry lookups.  The source looks
up the parent, creating a Node when absent, looks up the child, creating a
Node when absent (the child lookup still sees the original registry, since
a created parent is only registered afterwards by add_node), calls
p.add_child(c, type_, weight_) — a mutation of the parent instance, written
through to the registry when the parent was registered — and finally calls
add_node(p) and add_node(c), which register only missing names.  When both
endpoints are new and share the same name, two distinct instances are
created but only the parent instance is registered, exactly as in the
source.  The `directed` parameter is accepted and, as in the source, never
used. -/
def add_edge_by_node_sequence (g : Graph') (parent child : Nat)
    (directed : Option Bool) (transmission_probability : Option Nat)
    (type_ : Option Nat) (weight_ : Rat) : Graph' :=
  let tpEff := transmission_probability.getD g.transmission_probability
  match alookup parent g.nodes, alookup child g.nodes with
  | some p, some c =>
      let p' := addChild p c type_ weight_
      { g with nodes := writeThrough parent p' g.nodes }
  | some p, none =>
      let c : Node' := ⟨g.nextUid, child, tpEff, []⟩
      let p' := addChild p c type_ weight_
      { g with nodes := writeThrough parent p' g.nodes ++ [(child, c)],
               nextUid := g.nextUid + 1 }
  | none, some c =>
      let p : Node' := ⟨g.nextUid, parent, tpEff, []⟩
      let p' := addChild p c type_ weight_
      { g with nodes := g.nodes ++ [(parent, p')], nextUid := g.nextUid + 1 }
  | none, none =>
      let p : Node' := ⟨g.nextUid, parent, tpEff, []⟩
      let c : Node' := ⟨g.nextUid + 1, child, tpEff, []⟩
      let p' := addChild p c type_ weight_
      if child = parent then
        { g with nodes := g.nodes ++ [(parent, p')], nextUid := g.nextUid + 2 }
      else
        { g with nodes := g.nodes ++ [(parent, p'), (child, c)],
                 nextUid := g.nextUid + 2 }

/-- An edge record of the keyword form: a Python dict whose keys from_,
to_, type_, weight_ may each be present or absent. -/
structure EdgeRecord where
  from_ : Option Nat
  to_ : Option Nat
  type_ : Option Nat
  weight_ : Option Rat
deriving DecidableEq

/-- The keyword arguments of Graph.__init__. -/
structure Kwargs where
  graph : Option (List EdgeRecord)
  directed : Option Bool
  transmission_probability : Option Nat
deriving DecidableEq

/-- Graph.set_infection (graph.py lines 154-168): stores the wrapper built
over the caller-supplied callback; the wrapper's behaviour on a node is
`infectionWrapper`. -/
def set_infection (g : Graph') (callback : Nat) : Graph' :=
  { g with infection := some callback }

/-- Graph.set_recovery (graph.py lines 170-183): stores the wrapper built
over the caller-supplied callback; the wrapper's behaviour on a node is
`recoveryWrapper`. -/
def set_recovery (g : Graph') (callback : Nat) : Graph' :=
  { g with recovery := some callback }

/-- Graph.__init_nodes_from_kwargs (graph.py lines 81-98): reads the
`graph`, `directed` and `transmission_probability` keywords, then for each
record reads the required keys from_ and to_ (a missing key raises
KeyError, modelled as `Except.error`) and the optional keys type_ and
weight_ (defaulting to None and 1.0) and calls add_edge_by_node_sequence. -/
def initNodesFromKwargs (kw : Kwargs) (g : Graph') :
    List EdgeRecord → Except String Graph'
  | [] => .ok g
  | edge :: rest =>
      match edge.from_ with
      | none => .error "KeyError: from_"
      | some parent =>
          match edge.to_ with
          | none => .error "KeyError: to_"
          | some child =>
              initNodesFromKwargs kw
                (add_edge_by_node_sequence g parent child
                  (some (kw.directed.getD false)) kw.transmission_probability
                  edge.type_ (edge.weight_.getD 1))
                rest

/-- Graph.__init_nodes_from_args (graph.py lines 100-111): iterates the
2-tuples of the first positional argument and calls
add_edge_by_node_sequence with all optional parameters at their defaults;
the keyword arguments are received but never read. -/
def initNodesFromArgs (g : Graph') (pairs : List (Nat × Nat)) : Graph' :=
  pairs.foldl
    (fun g pc => add_edge_by_node_sequence g pc.1 pc.2 none none none 1) g

/-- Graph.__init__ (graph.py lines 32-53): empty registry and infected
index, the default transmission-probability closure, then the node
initialization selected by `'graph' in kwargs` / truthiness of args, then
installation of the no-op infection and recovery callbacks.  `args = some
pairs` models a non-empty positional tuple whose first element is the edge
list. -/
def initGraph (args : Option (List (Nat × Nat))) (kw : Kwargs) :
    Except String Graph' :=
  let g0 : Graph' :=
    { nodes := [], infected := [], transmission_probability := defaultTpTag,
      infection := none, recovery := none, nextUid := 0 }
  let built : Except String Graph' :=
    match kw.graph with
    | some records => initNodesFromKwargs kw g0 records
    | none =>
        match args with
        | some pairs => .ok (initNodesFromArgs g0 pairs)
        | none => .ok g0
  built.map (fun g => set_recovery (set_infection g noopCB) noopCB)

/-- The inner wrapper `i` of Graph.set_infection (graph.py lines 163-166)
acting on the infected index: if the node's name is not already a key it is
added, then the caller-supplied callback is invoked on the node.  The
first component is the updated index, the second the list of nodes (by
name) the caller-supplied callback was invoked on during this call. -/
def infectionWrapper (infected : List Nat) (n : Node') : List Nat × List Nat :=
  ((if n.name ∈ infected then infected else infected ++ [n.name]), [n.name])

/-- The inner wrapper `r` of Graph.set_recovery (graph.py lines 179-181)
acting on the infected index: if the node's name is a key it is removed.
The body of `r` never invokes the caller-supplied callback, so the list of
callback invocations is always empty.  -/
def recoveryWrapper (infected : List Nat) (n : Node') : List Nat × List Nat :=
  ((if n.name ∈ infected then infected.filter (fun x => x ≠ n.name)
    else infected), [])

/-- Add a name to the infected index unless already present: the index
effect of one invocation of the infection wrapper. -/
def infectName (infected : List Nat) (c : Nat) : List Nat :=
  if c ∈ infected then infected else infected ++ [c]

/-- Remove a name from the infected index: the index effect of one
invocation of the recovery wrapper. -/
def removeName (infected : List Nat) (c : Nat) : List Nat :=
  infected.filter (fun x => x ≠ c)

/-- Graph.infect_seeds (graph.py lines 185-192): invokes each seed node's
infect operation with the graph's infection procedure, which is a
dereference of the installed procedure (`none` models calling a `None`
callback).  Modelled from the spec: Node.infect invokes the supplied
callback on the node itself, so the index effect per seed is
`infectName`. -/
def infect_seeds (g : Graph') (seeds : List Nat) : Option Graph' :=
  match g.infection with
  | none => none
  | some _ =>
      some (seeds.foldl (fun g s => { g with infected := infectName g.infected s }) g)

/-- One infected node's contribution to a propagation tick.  Modelled from
the spec: Node.propagate draws once per owned edge against the edge's
transmission probability and, on success, invokes the supplied infection
callback on the neighbor (spec section 4.4); the draw outcome is supplied
as the oracle `choice`.  The node instance is resolved from the registry
by its name. -/
def tickInfect (nodes : List (Nat × Node')) (choice : Nat → Nat → Bool)
    (inf : List Nat) (pname : Nat) : List Nat :=
  match alookup pname nodes with
  | none => inf
  | some p =>
      p.edges.foldl
        (fun acc ce => if choice pname ce.1 then infectName acc ce.1 else acc) inf

/-- The index effect of Graph.propagate (graph.py lines 218-224): iterate
the set of infected nodes taken at entry (`set(self.__infected.values())`
is a fresh snapshot) and let each propagate through its edges via the
infection wrapper. -/
def propagateCore (g : Graph') (choice : Nat → Nat → Bool) : Graph' :=
  { g with infected := g.infected.foldl (tickInfect g.nodes choice) g.infected }

/-- One infected node's contribution to a recovery tick: the node decides
per its own policy (the oracle `dec`, spec section 4.5) whether to invoke
the recovery wrapper, which removes it from the index. -/
def tickRecover (dec : Nat → Bool) (inf : List Nat) (p : Nat) : List Nat :=
  if dec p then removeName inf p else inf

/-- The index effect of Graph.recover (graph.py lines 226-232): iterate the
snapshot of infected nodes, each recovering via `tickRecover`. -/
def recoverCore (g : Graph') (dec : Nat → Bool) : Graph' :=
  { g with infected := g.infected.foldl (tickRecover dec) g.infected }

/-- Graph.propagate with the dereference of the installed infection
procedure made explicit: `none` models calling a `None` callback. -/
def propagateG (g : Graph') (choice : Nat → Nat → Bool) : Option Graph' :=
  match g.infection with
  | none => none
  | some _ => some (propagateCore g choice)

/-- Graph.recover with the dereference of the installed recovery procedure
made explicit. -/
def recoverG (g : Graph') (dec : Nat → Bool) : Option Graph' :=
  match g.recovery with
  | none => none
  | some _ => some (recoverCore g dec)

/-- Graph.nodes() (graph.py lines 202-208): the set of registry values. -/
def nodesSet (g : Graph') : List Node' :=
  g.nodes.map Prod.snd

/-- Graph.infected() (graph.py lines 194-200): the values of the infected
index; under the keyed model these are the registry instances bearing the
infected names. -/
def infectedSet (g : Graph') : List Node' :=
  g.infected.filterMap (fun x => alookup x g.nodes)

/-- Graph.susceptible() (graph.py lines 210-216): the set difference
nodes().difference(infected()), recomputed on each call. -/
def susceptibleSet (g : Graph') : List Node' :=
  (nodesSet g).filter (fun n => n ∉ infectedSet g)

/-- The operations a driver can perform on a constructed graph. -/
inductive Op where
  | addEdgeSeq (parent child : Nat) (tpArg : Option Nat)
      (type_ : Option Nat) (w : Rat)
  | infectSeeds (seeds : List Nat)
  | propagate (choice : Nat → Nat → Bool)
  | recover (dec : Nat → Bool)
  | setInfection (cb : Nat)
  | setRecovery (cb : Nat)

/-- Effect of one operation on the graph state. -/
def applyOp (g : Graph') : Op → Graph'
  | .addEdgeSeq p c tpa t w => add_edge_by_node_sequence g p c none tpa t w
  | .infectSeeds seeds =>
      seeds.foldl (fun g s => { g with infected := infectName g.infected s }) g
  | .propagate choice => propagateCore g choice
  | .recover dec => recoverCore g dec
  | .setInfection cb => set_infection g cb
  | .setRecovery cb => set_recovery g cb

/-- The claims' usage discipline: infect_seeds is only called with nodes
belonging to the graph.  All other operations are unrestricted. -/
def legal (g : Graph') : Op → Prop
  | .infectSeeds seeds => ∀ s ∈ seeds, (alookup s g.nodes).isSome = true
  | _ => True

/-- Run a sequence of operations. -/
def runOps (g : Graph') : List Op → Graph'
  | [] => g
  | op :: rest => runOps (applyOp g op) rest

/-- Every operation of the sequence is legal in the state it is applied
to. -/
def legalTrace (g : Graph') : List Op → Prop
  | [] => True
  | op :: rest => legal g op ∧ legalTrace (applyOp g op) rest

/-- Every registry binding keys a node by its own name (add_node always
registers under node.name(), and a Node's name never changes). -/
def keyName (g : Graph') : Prop :=
  ∀ x n, alookup x g.nodes = some n → n.name = x

/-- Every edge target mentioned by a registered node is itself a registered
name (adjacency closure, upheld by construction). -/
def wfClosed (g : Graph') : Prop :=
  ∀ x n, alookup x g.nodes = some n →
    ∀ ce ∈ n.edges, (alookup ce.1 g.nodes).isSome = true

/-- Every infected name is a key of the registry. -/
def infReg (g : Graph') : Prop :=
  ∀ x ∈ g.infected, (alookup x g.nodes).isSome = true

/-- The registry holds at most one binding per name. -/
def keysNodup (g : Graph') : Prop :=
  (g.nodes.map Prod.fst).Nodup

/-- The state invariant maintained by every reachable graph. -/
def Inv (g : Graph') : Prop :=
  keyName g ∧ wfClosed g ∧ infReg g ∧ keysNodup g

/-- One successful transmission attempt: the registered node named p owns
an edge to x and the draw oracle grants the transmission. -/
def transmits (nodes : List (Nat × Node')) (choice : Nat → Nat → Bool)
    (p x : Nat) : Prop :=
  ∃ P, alookup p nodes = some P ∧ (∃ e, (x, e) ∈ P.edges) ∧ choice p x = true

/-- Whether an Except value is a success. -/
def exceptIsOk : Except String Graph' → Bool
  | .ok _ => true
  | .error _ => false

/-- The successful value of an Except, if any. -/
def okGraph : Except String Graph' → Option Graph'
  | .ok g => some g
  | .error _ => none

@[simp]
lemma alookup_nil {α : Type} (k : Nat) : alookup k ([] : List (Nat × α)) = none :=
rfl

@[simp]
lemma alookup_cons {α : Type} (k k' : Nat) (v : α) (l : List (Nat × α)) :
    alookup k ((k', v) :: l) = if k = k' then some v else alookup k l :=
rfl

lemma alookup_mem {α : Type} {k : Nat} {v : α} :
    ∀ {l : List (Nat × α)}, alookup k l = some v → (k, v) ∈ l := by
  intro l
  induction l with
  | nil => intro h; simp [alookup] at h
  | cons kv rest ih =>
      obtain ⟨k', v'⟩ := kv
      intro h
      by_cases hk : k = k'
      · simp [alookup_cons, hk] at h
        subst hk
        subst h
        exact List.mem_cons_self _ _
      · simp [alookup_cons, hk] at h
        exact List.mem_cons_of_mem _ (ih h)

lemma alookup_append {α : Type} (k : Nat) (l₁ l₂ : List (Nat × α)) :
    alookup k (l₁ ++ l₂) = (alookup k l₁).or (alookup k l₂) := by
  induction l₁ with
  | nil => simp [alookup]
  | cons kv rest ih =>
      obtain ⟨k', v'⟩ := kv
      by_cases hk : k = k' <;> simp [alookup_cons, hk, ih]

lemma alookup_none_keys {α : Type} {k : Nat} :
    ∀ {l : List (Nat × α)}, alookup k l = none ↔ k ∉ l.map Prod.fst := by
  intro l
  induction l with
  | nil => simp
  | cons kv rest ih =>
      obtain ⟨k', v'⟩ := kv
      by_cases hk : k = k' <;> simp [alookup_cons, hk, ih]

lemma alookup_isSome_keys {α : Type} {k : Nat} {l : List (Nat × α)} :
    (alookup k l).isSome = true ↔ k ∈ l.map Prod.fst := by
  rcases h : alookup k l with _ | v
  · simp [alookup_none_keys.mp h]
  · simp only [Option.isSome_some, true_iff]
    exact List.mem_map.mpr ⟨(k, v), alookup_mem h, rfl⟩

lemma alookup_writeThrough_self (k : Nat) (v : Node') (l : List (Nat × Node')) :
    alookup k (writeThrough k v l) = (alookup k l).map (fun _ => v) := by
  induction l with
  | nil => simp [writeThrough]
  | cons kv rest ih =>
      obtain ⟨k', v'⟩ := kv
      by_cases hk : k = k' <;> simp [writeThrough, alookup_cons, hk, ih]

lemma alookup_writeThrough_other {x k : Nat} (hxk : x ≠ k) (v : Node')
    (l : List (Nat × Node')) :
    alookup x (writeThrough k v l) = alookup x l := by
  induction l with
  | nil => simp [writeThrough]
  | cons kv rest ih =>
      obtain ⟨k', v'⟩ := kv
      by_cases hk : k = k'
      · subst hk
        simp [writeThrough, alookup_cons, hxk]
      · by_cases hx : x = k' <;> simp [writeThrough, alookup_cons, hk, hx, ih]

lemma writeThrough_keys (k : Nat) (v : Node') (l : List (Nat × Node')) :
    (writeThrough k v l).map Prod.fst = l.map Prod.fst := by
  induction l with
  | nil => rfl
  | cons kv rest ih =>
      obtain ⟨k', v'⟩ := kv
      by_cases hk : k = k' <;> simp [writeThrough, hk, ih]

lemma addChild_uid_name (p c : Node') (t : Option Nat) (w : Rat) :
    (addChild p c t w).uid = p.uid ∧ (addChild p c t w).name = p.name := by
  unfold addChild
  rcases alookup c.name p.edges with _ | e <;> simp

lemma incrMult_key {cname : Nat} {ce : Nat × Edge'} :
    ∀ {l : List (Nat × Edge')}, ce ∈ incrMult cname l → ∃ e, (ce.1, e) ∈ l := by
  intro l
  induction l with
  | nil => intro h; simp [incrMult] at h
  | cons kv rest ih =>
      obtain ⟨k, e⟩ := kv
      intro h
      by_cases hk : k = cname
      · simp [incrMult, hk] at h
        rcases h with h | h
        · subst h
          exact ⟨e, by simp [hk]⟩
        · exact ⟨ce.2, List.mem_cons_of_mem _ (by simpa using h)⟩
      · simp [incrMult, hk] at h
        rcases h with h | h
        · subst h
          exact ⟨e, by simp⟩
        · rcases ih h with ⟨e', he'⟩
          exact ⟨e', List.mem_cons_of_mem _ he'⟩

lemma addChild_target {p c : Node'} {t : Option Nat} {w : Rat}
    {ce : Nat × Edge'} (h : ce ∈ (addChild p c t w).edges) :
    (∃ e, (ce.1, e) ∈ p.edges) ∨ ce.1 = c.name := by
  unfold addChild at h
  rcases he : alookup c.name p.edges with _ | e
  · rw [he] at h
    simp at h
    rcases h with h | h
    · exact Or.inl ⟨ce.2, by simpa using h⟩
    · subst h
      exact Or.inr rfl
  · rw [he] at h
    simp at h
    exact Or.inl (incrMult_key h)

/-- Claim C1: for every graph, the default transmission-probability
function applied to a parent node and a child node it has an edge to
returns multiplicity(edge) divided by degree(parent), and returns exactly
0.0 when degree(parent) is 0, raising no division error (the result is a
defined value, not a failure). -/
theorem c1_default_tp_rule (p c : Node') (e : Edge')
    (h : alookup c.name p.edges = some e) :
    (degree p ≠ 0 → tp p c = some ((e.multiplicity : Rat) / (degree p : Rat))) ∧
    (degree p = 0 → tp p c = some 0) := by
  constructor <;> intro hd <;> simp [tp, h, hd]

/-- Witness for C1: a parent with edges of multiplicities 2 and 1 (degree
3) transmits to the first child with probability 2/3, and a degree-0
parent value yields exactly 0. -/
theorem c1_default_tp_rule_witness :
    tp (⟨0, 1, 0, [(5, ⟨2, none, 1⟩), (6, ⟨1, none, 1⟩)]⟩ : Node')
        (⟨1, 5, 0, []⟩ : Node') = some (((2 : Nat) : Rat) / ((3 : Nat) : Rat)) ∧
    tp (⟨0, 1, 0, [(5, ⟨0, none, 1⟩)]⟩ : Node') (⟨1, 5, 0, []⟩ : Node') = some 0 := by
  constructor
  · exact (c1_default_tp_rule ⟨0, 1, 0, [(5, ⟨2, none, 1⟩), (6, ⟨1, none, 1⟩)]⟩
      ⟨1, 5, 0, []⟩ ⟨2, none, 1⟩ rfl).1 (by decide)
  · exact (c1_default_tp_rule ⟨0, 1, 0, [(5, ⟨0, none, 1⟩)]⟩
      ⟨1, 5, 0, []⟩ ⟨0, none, 1⟩ rfl).2 (by decide)

/-- Claim C4 (code bug): the recovery procedure installed by set_recovery
removes the node from the infected index if present, but the body of the
inner wrapper `r` never invokes the caller-supplied callback, contradicting
the claim (and the source's own docstring, which says the removal happens
before executing the callback).  At the failing input (index {1}, node
named 1) the index removal happens and the list of callback invocations is
empty rather than containing the node. -/
theorem c4_recovery_callback_never_fires :
    recoveryWrapper [1] (⟨0, 1, 0, []⟩ : Node') = ([], []) ∧
    (∀ inf n, (recoveryWrapper inf n).2 = []) :=
  ⟨by decide, fun _ _ => rfl⟩

/-- Claim C5: the infection procedure adds the node's name to the infected
index if not already present, then invokes the caller-supplied callback on
that node; a second invocation on the already-infected node leaves the
index unchanged (hence unchanged in size) while the callback is again
invoked once on the node. -/
theorem c5_infection_wrapper_idempotent (inf : List Nat) (n : Node') :
    (infectionWrapper inf n).2 = [n.name] ∧
    n.name ∈ (infectionWrapper inf n).1 ∧
    (n.name ∉ inf → (infectionWrapper inf n).1 = inf ++ [n.name]) ∧
    (n.name ∈ inf → (infectionWrapper inf n).1 = inf) ∧
    (infectionWrapper (infectionWrapper inf n).1 n).1 = (infectionWrapper inf n).1 ∧
    ((infectionWrapper (infectionWrapper inf n).1 n).1).length
      = ((infectionWrapper inf n).1).length ∧
    (infectionWrapper (infectionWrapper inf n).1 n).2 = [n.name] := by
  by_cases h : n.name ∈ inf <;>
    simp [infectionWrapper, h]

/-- Witness for C5: starting from the empty index with a node named 1, the
first call adds 1 and reports one callback invocation; the second call
leaves the index at [1] and again reports one callback invocation. -/
theorem c5_infection_wrapper_idempotent_witness :
    (infectionWrapper [] (⟨0, 1, 0, []⟩ : Node')).2 = [1] ∧
    (1 : Nat) ∈ (infectionWrapper [] (⟨0, 1, 0, []⟩ : Node')).1 ∧
    ((1 : Nat) ∉ ([] : List Nat) →
      (infectionWrapper [] (⟨0, 1, 0, []⟩ : Node')).1 = [] ++ [1]) ∧
    ((1 : Nat) ∈ ([] : List Nat) →
      (infectionWrapper [] (⟨0, 1, 0, []⟩ : Node')).1 = []) ∧
    (infectionWrapper (infectionWrapper [] (⟨0, 1, 0, []⟩ : Node')).1
        (⟨0, 1, 0, []⟩ : Node')).1
      = (infectionWrapper [] (⟨0, 1, 0, []⟩ : Node')).1 ∧
    ((infectionWrapper (infectionWrapper [] (⟨0, 1, 0, []⟩ : Node')).1
        (⟨0, 1, 0, []⟩ : Node')).1).length
      = ((infectionWrapper [] (⟨0, 1, 0, []⟩ : Node')).1).length ∧
    (infectionWrapper (infectionWrapper [] (⟨0, 1, 0, []⟩ : Node')).1
        (⟨0, 1, 0, []⟩ : Node')).2 = [1] :=
  c5_infection_wrapper_idempotent [] ⟨0, 1, 0, []⟩

/-- Claim C6 (code bug): with the default directed=False the claim (and the
constructor's docstring) says relationships are wired bidirectionally, but
no code path creates the reverse edge.  Constructing from the single
record from_=1, to_=2 leaves node 2 with an empty adjacency, and a
propagation tick with an always-successful transmission draw starting from
infected child 2 infects nobody: child-to-parent transmission is
impossible. -/
theorem c6_undirected_reverse_edge_missing :
    (okGraph (initGraph none
        ⟨some [⟨some 1, some 2, none, none⟩], none, none⟩)).map
      (fun g => ((alookup 1 g.nodes).map (fun n => n.edges.map Prod.fst),
                 (alookup 2 g.nodes).map (fun n => n.edges.map Prod.fst),
                 (propagateCore { g with infected := [2] }
                    (fun _ _ => true)).infected))
      = some (some [2], some [], [2]) := by
  rfl

/-- Claim C7 (code bug): constructing from a positional sequence of
2-tuples together with a transmission_probability keyword binds every
created node to the default rule, not to the supplied function: the
positional path (__init_nodes_from_args) receives the keyword arguments
but never reads them.  With the supplied function tagged 7, both created
nodes carry the default tag instead. -/
theorem c7_positional_tp_keyword_ignored :
    (okGraph (initGraph (some [(1, 2)]) ⟨none, none, some 7⟩)).map
      (fun g => ((alookup 1 g.nodes).map Node'.tp,
                 (alookup 2 g.nodes).map Node'.tp))
      = some (some defaultTpTag, some defaultTpTag) ∧
    defaultTpTag ≠ 7 := by
  constructor
  · rfl
  · decide

lemma initNodesFromKwargs_error (kw : Kwargs) :
    ∀ (records : List EdgeRecord) (g : Graph'),
      (∃ r ∈ records, r.from_ = none ∨ r.to_ = none) →
      ∃ msg, initNodesFromKwargs kw g records = .error msg := by
  intro records
  induction records with
  | nil => intro g h; simp at h
  | cons r rest ih =>
      intro g h
      rcases hf : r.from_ with _ | parent
      · exact ⟨"KeyError: from_", by simp [initNodesFromKwargs, hf]⟩
      · rcases ht : r.to_ with _ | child
        · exact ⟨"KeyError: to_", by simp [initNodesFromKwargs, hf, ht]⟩
        · rcases h with ⟨r', hr', hmal⟩
          rcases List.mem_cons.mp hr' with rfl | hr'
          · rcases hmal with hmal | hmal
            · rw [hf] at hmal; cases hmal
            · rw [ht] at hmal; cases hmal
          · rcases ih (add_edge_by_node_sequence g parent child
                (some (kw.directed.getD false)) kw.transmission_probability
                r.type_ (r.weight_.getD 1)) ⟨r', hr', hmal⟩ with ⟨msg, hmsg⟩
            exact ⟨msg, by simp [initNodesFromKwargs, hf, ht, hmsg]⟩

lemma exceptMap_ok {f : Graph' → Graph'} {e : Except String Graph'} {g : Graph'}
    (h : e.map f = .ok g) : ∃ g', e = .ok g' ∧ g = f g' := by
  cases e with
  | ok g' => exact ⟨g', rfl, (Except.ok.inj h).symm⟩
  | error msg => exact absurd h (by simp [Except.map])

/-- Claim C9: for every keyword-form construction where some edge record
lacks the required key from_ or to_, Graph construction fails at
construction time (the KeyError raised while reading the record propagates
out of __init__) rather than silently dropping the edge. -/
theorem c9_malformed_record_fails_fast (args : Option (List (Nat × Nat)))
    (records : List EdgeRecord) (d : Option Bool) (tpa : Option Nat)
    (h : ∃ r ∈ records, r.from_ = none ∨ r.to_ = none) :
    exceptIsOk (initGraph args ⟨some records, d, tpa⟩) = false := by
  obtain ⟨msg, hmsg⟩ := initNodesFromKwargs_error ⟨some records, d, tpa⟩ records
    { nodes := [], infected := [], transmission_probability := defaultTpTag,
      infection := none, recovery := none, nextUid := 0 } h
  simp [initGraph, hmsg, exceptIsOk, Except.map]

/-- Witness for C9: a single record carrying only to_=2 (from_ missing)
makes construction fail. -/
theorem c9_malformed_record_fails_fast_witness :
    exceptIsOk (initGraph none
      ⟨some [⟨none, some 2, none, none⟩], none, none⟩) = false :=
  c9_malformed_record_fails_fast none [⟨none, some 2, none, none⟩] none none
    ⟨⟨none, some 2, none, none⟩, by simp, Or.inl rfl⟩

/-- Claim C10: immediately after any successful Graph construction the
no-op infection and no-op recovery procedures are already installed, so
infect_seeds, propagate and recover can be called without a prior
set_infection or set_recovery and never dereference an unset callback. -/
theorem c10_noop_callbacks_installed (args : Option (List (Nat × Nat)))
    (kw : Kwargs) (g : Graph') (h : initGraph args kw = .ok g) :
    g.infection = some noopCB ∧ g.recovery = some noopCB ∧
    (∀ seeds, (infect_seeds g seeds).isSome = true) ∧
    (∀ choice, (propagateG g choice).isSome = true) ∧
    (∀ dec, (recoverG g dec).isSome = true) := by
  unfold initGraph at h
  obtain ⟨g', _, rfl⟩ := exceptMap_ok h
  refine ⟨rfl, rfl, ?_, ?_, ?_⟩ <;> intro o <;>
    simp [infect_seeds, propagateG, recoverG, set_infection, set_recovery]

/-- Witness for C10: the graph constructed with no arguments has both no-op
callbacks installed and accepts seeding, propagation and recovery. -/
theorem c10_noop_callbacks_installed_witness :
    ({ nodes := [], infected := [], transmission_probability := defaultTpTag,
       infection := some noopCB, recovery := some noopCB,
       nextUid := 0 } : Graph').infection = some noopCB ∧
    ({ nodes := [], infected := [], transmission_probability := defaultTpTag,
       infection := some noopCB, recovery := some noopCB,
       nextUid := 0 } : Graph').recovery = some noopCB ∧
    (∀ seeds, (infect_seeds
      { nodes := [], infected := [], transmission_probability := defaultTpTag,
        infection := some noopCB, recovery := some noopCB, nextUid := 0 }
      seeds).isSome = true) ∧
    (∀ choice, (propagateG
      { nodes := [], infected := [], transmission_probability := defaultTpTag,
        infection := some noopCB, recovery := some noopCB, nextUid := 0 }
      choice).isSome = true) ∧
    (∀ dec, (recoverG
      { nodes := [], infected := [], transmission_probability := defaultTpTag,
        infection := some noopCB, recovery := some noopCB, nextUid := 0 }
      dec).isSome = true) :=
  c10_noop_callbacks_installed none ⟨none, none, none⟩ _ rfl

lemma optionOr_some {α : Type} (a : α) (b : Option α) : (some a).or b = some a :=
rfl

lemma optionOr_none {α : Type} (b : Option α) : (Option.none : Option α).or b = b :=
rfl

lemma addEdge_infected (g : Graph') (parent child : Nat) (d : Option Bool)
    (tpa : Option Nat) (t : Option Nat) (w : Rat) :
    (add_edge_by_node_sequence g parent child d tpa t w).infected = g.infected := by
  cases hp : alookup parent g.nodes <;> cases hc : alookup child g.nodes <;>
    simp [add_edge_by_node_sequence, hp, hc] <;> split <;> rfl

lemma addEdge_stable {g : Graph'} {x : Nat} {n : Node'} (parent child : Nat)
    (d : Option Bool) (tpa : Option Nat) (t : Option Nat) (w : Rat)
    (h : alookup x g.nodes = some n) :
    ∃ n', alookup x (add_edge_by_node_sequence g parent child d tpa t w).nodes
        = some n' ∧ n'.uid = n.uid ∧ n'.name = n.name := by
  cases hp : alookup parent g.nodes with
  | some p =>
      have hstay : ∀ v, x ≠ parent →
          alookup x (writeThrough parent v g.nodes) = some n := by
        intro v hxp
        rw [alookup_writeThrough_other hxp]
        exact h
      have hself : ∀ v, x = parent →
          alookup x (writeThrough parent v g.nodes) = some v := by
        intro v hxp
        subst hxp
        rw [alookup_writeThrough_self, h]
        rfl
      cases hc : alookup child g.nodes with
      | some c =>
          simp only [add_edge_by_node_sequence, hp, hc]
          by_cases hxp : x = parent
          · subst hxp
            have hn : n = p := by rw [hp] at h; exact (Option.some.inj h).symm
            subst hn
            exact ⟨addChild n c t w, hself _ rfl,
              (addChild_uid_name n c t w).1, (addChild_uid_name n c t w).2⟩
          · exact ⟨n, hstay _ hxp, rfl, rfl⟩
      | none =>
          simp only [add_edge_by_node_sequence, hp, hc]
          by_cases hxp : x = parent
          · subst hxp
            have hn : n = p := by rw [hp] at h; exact (Option.some.inj h).symm
            subst hn
            refine ⟨addChild n ⟨g.nextUid, child, tpa.getD g.transmission_probability, []⟩ t w,
              ?_, (addChild_uid_name n _ t w).1, (addChild_uid_name n _ t w).2⟩
            rw [alookup_append, hself _ rfl]
            rfl
          · refine ⟨n, ?_, rfl, rfl⟩
            rw [alookup_append, hstay _ hxp]
            rfl
  | none =>
      have hxp : x ≠ parent := by
        intro hx
        subst hx
        rw [hp] at h
        cases h
      cases hc : alookup child g.nodes with
      | some c =>
          simp only [add_edge_by_node_sequence, hp, hc]
          refine ⟨n, ?_, rfl, rfl⟩
          rw [alookup_append, h]
          rfl
      | none =>
          have hxc : x ≠ child := by
            intro hx
            subst hx
            rw [hc] at h
            cases h
          simp only [add_edge_by_node_sequence, hp, hc]
          by_cases hcp : child = parent
          · subst hcp
            rw [if_pos rfl]
            refine ⟨n, ?_, rfl, rfl⟩
            rw [alookup_append, h]
            rfl
          · simp only [if_neg hcp]
            refine ⟨n, ?_, rfl, rfl⟩
            rw [alookup_append, h]
            rfl

lemma addEdge_endpoints (g : Graph') (parent child : Nat) (d : Option Bool)
    (tpa : Option Nat) (t : Option Nat) (w : Rat) :
    (alookup parent (add_edge_by_node_sequence g parent child d tpa t w).nodes).isSome
        = true ∧
    (alookup child (add_edge_by_node_sequence g parent child d tpa t w).nodes).isSome
        = true := by
  cases hp : alookup parent g.nodes with
  | some p =>
      cases hc : alookup child g.nodes with
      | some c =>
          simp only [add_edge_by_node_sequence, hp, hc]
          constructor
          · simp [alookup_writeThrough_self, hp]
          · by_cases hcp : child = parent
            · subst hcp
              simp [alookup_writeThrough_self, hp]
            · simp [alookup_writeThrough_other hcp, hc]
      | none =>
          have hcp : child ≠ parent := by
            intro hx
            rw [hx, hp] at hc
            cases hc
          simp only [add_edge_by_node_sequence, hp, hc]
          constructor
          · simp [alookup_append, alookup_writeThrough_self, hp, Option.or]
          · simp [alookup_append, alookup_writeThrough_other hcp, hc, Option.or]
  | none =>
      cases hc : alookup child g.nodes with
      | some c =>
          have hcp : parent ≠ child := by
            intro hx
            rw [hx, hc] at hp
            cases hp
          simp only [add_edge_by_node_sequence, hp, hc]
          constructor
          · simp [alookup_append, hp, Option.or]
          · simp [alookup_append, hc, Option.or]
      | none =>
          simp only [add_edge_by_node_sequence, hp, hc]
          by_cases hcp : child = parent
          · subst hcp
            rw [if_pos rfl]
            constructor <;> simp [alookup_append, hp, Option.or]
          · rw [if_neg hcp]
            constructor
            · simp [alookup_append, hp, Option.or]
            · simp [alookup_append, hc, hcp, Option.or]

lemma addChild_name (p c : Node') (t : Option Nat) (w : Rat) :
    (addChild p c t w).name = p.name :=
(addChild_uid_name p c t w).2

lemma addEdge_keyName {g : Graph'} (hkn : keyName g) (parent child : Nat)
    (d : Option Bool) (tpa : Option Nat) (t : Option Nat) (w : Rat) :
    keyName (add_edge_by_node_sequence g parent child d tpa t w) := by
  intro x n' h'
  cases hp : alookup parent g.nodes with
  | some p =>
      cases hc : alookup child g.nodes with
      | some c =>
          simp only [add_edge_by_node_sequence, hp, hc] at h'
          by_cases hxp : x = parent
          · subst hxp
            rw [alookup_writeThrough_self, hp] at h'
            have : n' = addChild p c t w := (Option.some.inj h').symm
            subst this
            rw [addChild_name]
            exact hkn _ _ hp
          · rw [alookup_writeThrough_other hxp] at h'
            exact hkn _ _ h'
      | none =>
          simp only [add_edge_by_node_sequence, hp, hc] at h'
          rw [alookup_append] at h'
          by_cases hxp : x = parent
          · subst hxp
            rw [alookup_writeThrough_self, hp] at h'
            have : n' = addChild p ⟨g.nextUid, child, tpa.getD g.transmission_probability, []⟩ t w :=
              (Option.some.inj h').symm
            subst this
            rw [addChild_name]
            exact hkn _ _ hp
          · rw [alookup_writeThrough_other hxp] at h'
            rcases hx : alookup x g.nodes with _ | n''
            · rw [hx, optionOr_none] at h'
              simp only [alookup_cons, alookup_nil] at h'
              by_cases hxc : x = child
              · simp only [hxc, if_pos rfl] at h'
                have : n' = ⟨g.nextUid, child, tpa.getD g.transmission_probability, []⟩ :=
                  (Option.some.inj h').symm
                subst this
                exact hxc.symm
              · simp [hxc] at h'
            · rw [hx, optionOr_some] at h'
              have : n' = n'' := (Option.some.inj h').symm
              subst this
              exact hkn _ _ hx
  | none =>
      cases hc : alookup child g.nodes with
      | some c =>
          simp only [add_edge_by_node_sequence, hp, hc] at h'
          rw [alookup_append] at h'
          rcases hx : alookup x g.nodes with _ | n''
          · rw [hx, optionOr_none] at h'
            simp only [alookup_cons, alookup_nil] at h'
            by_cases hxp : x = parent
            · simp only [hxp, if_pos rfl] at h'
              have : n' = addChild ⟨g.nextUid, parent, tpa.getD g.transmission_probability, []⟩ c t w :=
                (Option.some.inj h').symm
              subst this
              rw [addChild_name]
              exact hxp.symm
            · simp [hxp] at h'
          · rw [hx, optionOr_some] at h'
            have : n' = n'' := (Option.some.inj h').symm
            subst this
            exact hkn _ _ hx
      | none =>
          simp only [add_edge_by_node_sequence, hp, hc] at h'
          by_cases hcp : child = parent
          · subst hcp
            rw [if_pos rfl] at h'
            rw [alookup_append] at h'
            rcases hx : alookup x g.nodes with _ | n''
            · rw [hx, optionOr_none] at h'
              simp only [alookup_cons, alookup_nil] at h'
              by_cases hxp : x = child
              · simp only [hxp, if_pos rfl] at h'
                have : n' = addChild ⟨g.nextUid, child, tpa.getD g.transmission_probability, []⟩
                    ⟨g.nextUid + 1, child, tpa.getD g.transmission_probability, []⟩ t w :=
                  (Option.some.inj h').symm
                subst this
                rw [addChild_name]
                exact hxp.symm
              · simp [hxp] at h'
            · rw [hx, optionOr_some] at h'
              have : n' = n'' := (Option.some.inj h').symm
              subst this
              exact hkn _ _ hx
          · rw [if_neg hcp] at h'
            rw [alookup_append] at h'
            rcases hx : alookup x g.nodes with _ | n''
            · rw [hx, optionOr_none] at h'
              simp only [alookup_cons, alookup_nil] at h'
              by_cases hxp : x = parent
              · simp only [hxp, if_pos rfl] at h'
                have : n' = addChild ⟨g.nextUid, parent, tpa.getD g.transmission_probability, []⟩
                    ⟨g.nextUid + 1, child, tpa.getD g.transmission_probability, []⟩ t w :=
                  (Option.some.inj h').symm
                subst this
                rw [addChild_name]
                exact hxp.symm
              · simp only [hxp, if_neg hxp] at h'
                by_cases hxc : x = child
                · simp only [hxc, if_pos rfl] at h'
                  have : n' = ⟨g.nextUid + 1, child, tpa.getD g.transmission_probability, []⟩ :=
                    (Option.some.inj h').symm
                  subst this
                  exact hxc.symm
                · simp [hxc] at h'
            · rw [hx, optionOr_some] at h'
              have : n' = n'' := (Option.some.inj h').symm
              subst this
              exact hkn _ _ hx

lemma addEdge_edges {g : Graph'} (hkn : keyName g) (parent child : Nat)
    (d : Option Bool) (tpa : Option Nat) (t : Option Nat) (w : Rat)
    {x : Nat} {n' : Node'}
    (h' : alookup x (add_edge_by_node_sequence g parent child d tpa t w).nodes
      = some n') :
    ∀ ce ∈ n'.edges,
      (∃ n, alookup x g.nodes = some n ∧ ∃ e, (ce.1, e) ∈ n.edges) ∨ ce.1 = child := by
  intro ce hce
  cases hp : alookup parent g.nodes with
  | some p =>
      cases hc : alookup child g.nodes with
      | some c =>
          simp only [add_edge_by_node_sequence, hp, hc] at h'
          by_cases hxp : x = parent
          · subst hxp
            rw [alookup_writeThrough_self, hp] at h'
            have hn : n' = addChild p c t w := (Option.some.inj h').symm
            subst hn
            rcases addChild_target hce with h | h
            · exact Or.inl ⟨p, hp, h⟩
            · exact Or.inr (h.trans (hkn _ _ hc))
          · rw [alookup_writeThrough_other hxp] at h'
            exact Or.inl ⟨n', h', ce.2, by simpa using hce⟩
      | none =>
          simp only [add_edge_by_node_sequence, hp, hc] at h'
          rw [alookup_append] at h'
          by_cases hxp : x = parent
          · subst hxp
            rw [alookup_writeThrough_self, hp] at h'
            have hn : n' = addChild p
                ⟨g.nextUid, child, tpa.getD g.transmission_probability, []⟩ t w :=
              (Option.some.inj h').symm
            subst hn
            rcases addChild_target hce with h | h
            · exact Or.inl ⟨p, hp, h⟩
            · exact Or.inr h
          · rw [alookup_writeThrough_other hxp] at h'
            rcases hx : alookup x g.nodes with _ | n''
            · rw [hx, optionOr_none] at h'
              simp only [alookup_cons, alookup_nil] at h'
              by_cases hxc : x = child
              · simp only [hxc, if_pos rfl] at h'
                have hn : n' = ⟨g.nextUid, child, tpa.getD g.transmission_probability, []⟩ :=
                  (Option.some.inj h').symm
                subst hn
                simp at hce
              · simp [hxc] at h'
            · rw [hx, optionOr_some] at h'
              have hn : n' = n'' := (Option.some.inj h').symm
              subst hn
              exact Or.inl ⟨n', rfl, ce.2, by simpa using hce⟩
  | none =>
      cases hc : alookup child g.nodes with
      | some c =>
          simp only [add_edge_by_node_sequence, hp, hc] at h'
          rw [alookup_append] at h'
          rcases hx : alookup x g.nodes with _ | n''
          · rw [hx, optionOr_none] at h'
            simp only [alookup_cons, alookup_nil] at h'
            by_cases hxp : x = parent
            · simp only [hxp, if_pos rfl] at h'
              have hn : n' = addChild
                  ⟨g.nextUid, parent, tpa.getD g.transmission_probability, []⟩ c t w :=
                (Option.some.inj h').symm
              subst hn
              rcases addChild_target hce with h | h
              · rcases h with ⟨e, he⟩
                simp at he
              · exact Or.inr (h.trans (hkn _ _ hc))
            · simp [hxp] at h'
          · rw [hx, optionOr_some] at h'
            have hn : n' = n'' := (Option.some.inj h').symm
            subst hn
            exact Or.inl ⟨n', rfl, ce.2, by simpa using hce⟩
      | none =>
          simp only [add_edge_by_node_sequence, hp, hc] at h'
          by_cases hcp : child = parent
          · subst hcp
            rw [if_pos rfl] at h'
            rw [alookup_append] at h'
            rcases hx : alookup x g.nodes with _ | n''
            · rw [hx, optionOr_none] at h'
              simp only [alookup_cons, alookup_nil] at h'
              by_cases hxc : x = child
              · simp only [hxc, if_pos rfl] at h'
                have hn : n' = addChild
                    ⟨g.nextUid, child, tpa.getD g.transmission_probability, []⟩
                    ⟨g.nextUid + 1, child, tpa.getD g.transmission_probability, []⟩ t w :=
                  (Option.some.inj h').symm
                subst hn
                rcases addChild_target hce with h | h
                · rcases h with ⟨e, he⟩
                  simp at he
                · exact Or.inr h
              · simp [hxc] at h'
            · rw [hx, optionOr_some] at h'
              have hn : n' = n'' := (Option.some.inj h').symm
              subst hn
              exact Or.inl ⟨n', rfl, ce.2, by simpa using hce⟩
          · rw [if_neg hcp] at h'
            rw [alookup_append] at h'
            rcases hx : alookup x g.nodes with _ | n''
            · rw [hx, optionOr_none] at h'
              simp only [alookup_cons, alookup_nil] at h'
              by_cases hxp : x = parent
              · simp only [hxp, if_pos rfl] at h'
                have hn : n' = addChild
                    ⟨g.nextUid, parent, tpa.getD g.transmission_probability, []⟩
                    ⟨g.nextUid + 1, child, tpa.getD g.transmission_probability, []⟩ t w :=
                  (Option.some.inj h').symm
                subst hn
                rcases addChild_target hce with h | h
                · rcases h with ⟨e, he⟩
                  simp at he
                · exact Or.inr h
              · simp only [hxp, if_neg hxp] at h'
                by_cases hxc : x = child
                · simp only [hxc, if_pos rfl] at h'
                  have hn : n' = ⟨g.nextUid + 1, child, tpa.getD g.transmission_probability, []⟩ :=
                    (Option.some.inj h').symm
                  subst hn
                  simp at hce
                · simp [hxc] at h'
            · rw [hx, optionOr_some] at h'
              have hn : n' = n'' := (Option.some.inj h').symm
              subst hn
              exact Or.inl ⟨n', rfl, ce.2, by simpa using hce⟩

lemma addEdge_nodup {g : Graph'} (hnd : keysNodup g) (parent child : Nat)
    (d : Option Bool) (tpa : Option Nat) (t : Option Nat) (w : Rat) :
    keysNodup (add_edge_by_node_sequence g parent child d tpa t w) := by
  unfold keysNodup at *
  cases hp : alookup parent g.nodes with
  | some p =>
      cases hc : alookup child g.nodes with
      | some c =>
          simp only [add_edge_by_node_sequence, hp, hc]
          rw [writeThrough_keys]
          exact hnd
      | none =>
          have hcnk : child ∉ g.nodes.map Prod.fst := alookup_none_keys.mp hc
          simp only [add_edge_by_node_sequence, hp, hc]
          rw [List.map_append, writeThrough_keys]
          simp [List.nodup_append, hnd, hcnk]
  | none =>
      have hpnk : parent ∉ g.nodes.map Prod.fst := alookup_none_keys.mp hp
      cases hc : alookup child g.nodes with
      | some c =>
          simp only [add_edge_by_node_sequence, hp, hc]
          rw [List.map_append]
          simp [List.nodup_append, hnd, hpnk]
      | none =>
          have hcnk : child ∉ g.nodes.map Prod.fst := alookup_none_keys.mp hc
          simp only [add_edge_by_node_sequence, hp, hc]
          by_cases hcp : child = parent
          · subst hcp
            rw [if_pos rfl, List.map_append]
            simp [List.nodup_append, hnd, hcnk]
          · have hpc : ¬parent = child := fun h => hcp h.symm
            rw [if_neg hcp, List.map_append]
            simp [List.nodup_append, hnd, hpnk, hcnk, hpc]

lemma infectName_mem (x c : Nat) (inf : List Nat) :
    x ∈ infectName inf c ↔ x ∈ inf ∨ x = c := by
  unfold infectName
  by_cases h : c ∈ inf
  · rw [if_pos h]
    constructor
    · exact Or.inl
    · rintro (hx | rfl)
      · exact hx
      · exact h
  · rw [if_neg h]
    simp

lemma edgesFold_mem (choice : Nat → Nat → Bool) (pname : Nat) :
    ∀ (edges : List (Nat × Edge')) (inf : List Nat) (x : Nat),
      x ∈ edges.foldl
          (fun acc ce => if choice pname ce.1 then infectName acc ce.1 else acc) inf
        ↔ x ∈ inf ∨ ∃ ce ∈ edges, ce.1 = x ∧ choice pname x = true := by
  intro edges
  induction edges with
  | nil => intro inf x; simp
  | cons ce rest ih =>
      intro inf x
      simp only [List.foldl_cons]
      by_cases hch : choice pname ce.1 = true
      · rw [if_pos hch, ih, infectName_mem]
        constructor
        · rintro ((hx | rfl) | ⟨ce', hce', rfl, hch'⟩)
          · exact Or.inl hx
          · exact Or.inr ⟨ce, List.mem_cons_self _ _, rfl, hch⟩
          · exact Or.inr ⟨ce', List.mem_cons_of_mem _ hce', rfl, hch'⟩
        · rintro (hx | ⟨ce', hce', rfl, hch'⟩)
          · exact Or.inl (Or.inl hx)
          · rcases List.mem_cons.mp hce' with rfl | hce'
            · exact Or.inl (Or.inr rfl)
            · exact Or.inr ⟨ce', hce', rfl, hch'⟩
      · rw [if_neg hch, ih]
        constructor
        · rintro (hx | ⟨ce', hce', rfl, hch'⟩)
          · exact Or.inl hx
          · exact Or.inr ⟨ce', List.mem_cons_of_mem _ hce', rfl, hch'⟩
        · rintro (hx | ⟨ce', hce', rfl, hch'⟩)
          · exact Or.inl hx
          · rcases List.mem_cons.mp hce' with rfl | hce'
            · exact absurd hch' hch
            · exact Or.inr ⟨ce', hce', rfl, hch'⟩

lemma tickInfect_mem (nodes : List (Nat × Node')) (choice : Nat → Nat → Bool)
    (inf : List Nat) (p x : Nat) :
    x ∈ tickInfect nodes choice inf p ↔ x ∈ inf ∨ transmits nodes choice p x := by
  unfold tickInfect transmits
  cases hP : alookup p nodes with
  | none => simp
  | some P =>
      rw [edgesFold_mem]
      constructor
      · rintro (hx | ⟨ce, hce, rfl, hch⟩)
        · exact Or.inl hx
        · exact Or.inr ⟨P, rfl, ⟨ce.2, by simpa using hce⟩, hch⟩
      · rintro (hx | ⟨P', hP', ⟨e, he⟩, hch⟩)
        · exact Or.inl hx
        · have : P' = P := (Option.some.inj hP').symm
          subst this
          exact Or.inr ⟨(x, e), he, rfl, hch⟩

lemma propagateFold_mem (nodes : List (Nat × Node')) (choice : Nat → Nat → Bool) :
    ∀ (l inf : List Nat) (x : Nat),
      x ∈ l.foldl (tickInfect nodes choice) inf
        ↔ x ∈ inf ∨ ∃ p ∈ l, transmits nodes choice p x := by
  intro l
  induction l with
  | nil => intro inf x; simp
  | cons p rest ih =>
      intro inf x
      simp only [List.foldl_cons]
      rw [ih, tickInfect_mem]
      constructor
      · rintro ((hx | ht) | ⟨p', hp', ht⟩)
        · exact Or.inl hx
        · exact Or.inr ⟨p, List.mem_cons_self _ _, ht⟩
        · exact Or.inr ⟨p', List.mem_cons_of_mem _ hp', ht⟩
      · rintro (hx | ⟨p', hp', ht⟩)
        · exact Or.inl (Or.inl hx)
        · rcases List.mem_cons.mp hp' with rfl | hp'
          · exact Or.inl (Or.inr ht)
          · exact Or.inr ⟨p', hp', ht⟩

lemma recoverFold_subset (dec : Nat → Bool) :
    ∀ (l inf : List Nat) (x : Nat),
      x ∈ l.foldl (tickRecover dec) inf → x ∈ inf := by
  intro l
  induction l with
  | nil => intro inf x hx; simpa using hx
  | cons p rest ih =>
      intro inf x hx
      have := ih _ _ hx
      unfold tickRecover at this
      by_cases hd : dec p = true
      · rw [if_pos hd] at this
        exact (List.mem_filter.mp this).1
      · rwa [if_neg hd] at this

lemma seedsFold_nodes (seeds : List Nat) :
    ∀ (g : Graph'),
      (seeds.foldl (fun g s => { g with infected := infectName g.infected s }) g).nodes
        = g.nodes := by
  induction seeds with
  | nil => intro g; rfl
  | cons s rest ih => intro g; rw [List.foldl_cons, ih]

lemma seedsFold_mem (seeds : List Nat) :
    ∀ (g : Graph') (x : Nat),
      x ∈ (seeds.foldl (fun g s => { g with infected := infectName g.infected s }) g).infected
        ↔ x ∈ g.infected ∨ x ∈ seeds := by
  induction seeds with
  | nil => intro g x; simp
  | cons s rest ih =>
      intro g x
      rw [List.foldl_cons, ih]
      simp only [infectName_mem, List.mem_cons]
      constructor
      · rintro ((hx | rfl) | hx)
        · exact Or.inl hx
        · exact Or.inr (Or.inl rfl)
        · exact Or.inr (Or.inr hx)
      · rintro (hx | rfl | hx)
        · exact Or.inl (Or.inl hx)
        · exact Or.inl (Or.inr rfl)
        · exact Or.inr hx

lemma inv_addEdge {g : Graph'} (hI : Inv g) (parent child : Nat)
    (d : Option Bool) (tpa : Option Nat) (t : Option Nat) (w : Rat) :
    Inv (add_edge_by_node_sequence g parent child d tpa t w) := by
  obtain ⟨hkn, hwf, hir, hnd⟩ := hI
  refine ⟨addEdge_keyName hkn parent child d tpa t w, ?_, ?_, ?_⟩
  · intro x n' h' ce hce
    rcases addEdge_edges hkn parent child d tpa t w h' ce hce with ⟨n, hn, e, he⟩ | hc
    · have hold : (alookup ce.1 g.nodes).isSome = true := hwf x n hn (ce.1, e) he
      rcases Option.isSome_iff_exists.mp hold with ⟨m, hm⟩
      rcases addEdge_stable parent child d tpa t w hm with ⟨m', hm', _, _⟩
      rw [hm']
      rfl
    · rw [hc]
      exact (addEdge_endpoints g parent child d tpa t w).2
  · intro x hx
    rw [addEdge_infected] at hx
    rcases Option.isSome_iff_exists.mp (hir x hx) with ⟨m, hm⟩
    rcases addEdge_stable parent child d tpa t w hm with ⟨m', hm', _, _⟩
    rw [hm']
    rfl
  · exact addEdge_nodup hnd parent child d tpa t w

lemma inv_applyOp {g : Graph'} (hI : Inv g) (op : Op) (hleg : legal g op) :
    Inv (applyOp g op) := by
  obtain ⟨hkn, hwf, hir, hnd⟩ := hI
  cases op with
  | addEdgeSeq parent child tpa t w =>
      exact inv_addEdge ⟨hkn, hwf, hir, hnd⟩ parent child none tpa t w
  | infectSeeds seeds =>
      refine ⟨?_, ?_, ?_, ?_⟩ <;>
        simp only [applyOp, seedsFold_nodes, keyName, wfClosed, infReg, keysNodup]
      · exact hkn
      · exact hwf
      · intro x hx
        rcases (seedsFold_mem seeds g x).mp hx with hx | hx
        · exact hir x hx
        · exact hleg x hx
      · exact hnd
  | propagate choice =>
      refine ⟨hkn, hwf, ?_, hnd⟩
      intro x hx
      simp only [applyOp, propagateCore] at hx
      rcases (propagateFold_mem g.nodes choice g.infected g.infected x).mp hx with hx | hx
      · exact hir x hx
      · rcases hx with ⟨p, _, P, hP, ⟨e, he⟩, _⟩
        exact hwf p P hP (x, e) he
  | recover dec =>
      refine ⟨hkn, hwf, ?_, hnd⟩
      intro x hx
      simp only [applyOp, recoverCore] at hx
      exact hir x (recoverFold_subset dec g.infected g.infected x hx)
  | setInfection cb => exact ⟨hkn, hwf, hir, hnd⟩
  | setRecovery cb => exact ⟨hkn, hwf, hir, hnd⟩

lemma inv_runOps {g : Graph'} (hI : Inv g) :
    ∀ ops : List Op, legalTrace g ops → Inv (runOps g ops) := by
  intro ops
  induction ops generalizing g with
  | nil => intro _; exact hI
  | cons op rest ih =>
      intro hleg
      exact ih (inv_applyOp hI op hleg.1) hleg.2

lemma inv_initNodesFromArgs {g : Graph'} (hI : Inv g) :
    ∀ pairs : List (Nat × Nat), Inv (initNodesFromArgs g pairs) := by
  intro pairs
  induction pairs generalizing g with
  | nil => exact hI
  | cons pc rest ih =>
      exact ih (inv_addEdge hI pc.1 pc.2 none none none 1)

lemma inv_initNodesFromKwargs (kw : Kwargs) :
    ∀ (records : List EdgeRecord) (g g' : Graph'), Inv g →
      initNodesFromKwargs kw g records = .ok g' → Inv g' := by
  intro records
  induction records with
  | nil =>
      intro g g' hI h
      simp only [initNodesFromKwargs] at h
      exact (Except.ok.inj h) ▸ hI
  | cons r rest ih =>
      intro g g' hI h
      rcases hf : r.from_ with _ | parent
      · rw [initNodesFromKwargs, hf] at h
        cases h
      · rcases ht : r.to_ with _ | child
        · rw [initNodesFromKwargs, hf, ht] at h
          cases h
        · rw [initNodesFromKwargs, hf, ht] at h
          exact ih _ _ (inv_addEdge hI parent child _ _ _ _) h

lemma inv_set (g : Graph') (a b : Nat) (hI : Inv g) :
    Inv (set_recovery (set_infection g a) b) := by
  obtain ⟨hkn, hwf, hir, hnd⟩ := hI
  exact ⟨hkn, hwf, hir, hnd⟩

lemma inv_initGraph {args : Option (List (Nat × Nat))} {kw : Kwargs} {g : Graph'}
    (h : initGraph args kw = .ok g) : Inv g := by
  have hI0 : Inv (⟨[], [], defaultTpTag, none, none, 0⟩ : Graph') := by
    refine ⟨?_, ?_, ?_, ?_⟩ <;> simp [keyName, wfClosed, infReg, keysNodup, alookup]
  unfold initGraph at h
  obtain ⟨g', hg', rfl⟩ := exceptMap_ok h
  cases hkwg : kw.graph with
  | some records =>
      rw [hkwg] at hg'
      exact inv_set _ _ _ (inv_initNodesFromKwargs kw records _ _ hI0 hg')
  | none =>
      rw [hkwg] at hg'
      cases args with
      | some pairs =>
          simp only [Except.ok.injEq] at hg'
          exact inv_set _ _ _ (hg' ▸ inv_initNodesFromArgs hI0 pairs)
      | none =>
          simp only [Except.ok.injEq] at hg'
          exact inv_set _ _ _ (hg' ▸ hI0)

lemma susceptibleSet_mem (g : Graph') (n : Node') :
    n ∈ susceptibleSet g ↔ n ∈ nodesSet g ∧ n ∉ infectedSet g := by
  simp [susceptibleSet, List.mem_filter]

lemma infectedSet_subset (g : Graph') (n : Node') (h : n ∈ infectedSet g) :
    n ∈ nodesSet g := by
  rcases List.mem_filterMap.mp h with ⟨x, _, hx⟩
  exact List.mem_map.mpr ⟨(x, n), alookup_mem hx, rfl⟩

/-- Claim C2: for every graph constructed by __init__ and driven by any
sequence of operations in which infect_seeds is only called with nodes
belonging to the graph, at every point in time every infected name is
present in nodes, susceptible() equals the set difference nodes() −
infected(), nodes() == infected() ∪ susceptible() and
infected() ∩ susceptible() == ∅. -/
theorem c2_partition_invariant (args : Option (List (Nat × Nat))) (kw : Kwargs)
    (g0 : Graph') (ops : List Op) (hinit : initGraph args kw = .ok g0)
    (hleg : legalTrace g0 ops) :
    (∀ x ∈ (runOps g0 ops).infected,
        (alookup x (runOps g0 ops).nodes).isSome = true) ∧
    (∀ n, n ∈ susceptibleSet (runOps g0 ops)
        ↔ n ∈ nodesSet (runOps g0 ops) ∧ n ∉ infectedSet (runOps g0 ops)) ∧
    (∀ n, n ∈ nodesSet (runOps g0 ops)
        ↔ n ∈ infectedSet (runOps g0 ops) ∨ n ∈ susceptibleSet (runOps g0 ops)) ∧
    (∀ n, ¬(n ∈ infectedSet (runOps g0 ops) ∧ n ∈ susceptibleSet (runOps g0 ops))) := by
  have hI : Inv (runOps g0 ops) := inv_runOps (inv_initGraph hinit) ops hleg
  refine ⟨hI.2.2.1, susceptibleSet_mem _, ?_, ?_⟩
  · intro n
    constructor
    · intro hn
      by_cases hi : n ∈ infectedSet (runOps g0 ops)
      · exact Or.inl hi
      · exact Or.inr ((susceptibleSet_mem _ n).mpr ⟨hn, hi⟩)
    · rintro (hn | hn)
      · exact infectedSet_subset _ n hn
      · exact ((susceptibleSet_mem _ n).mp hn).1
  · rintro n ⟨hi, hs⟩
    exact ((susceptibleSet_mem _ n).mp hs).2 hi

/-- Witness for C2: the graph built from [(1,2)] after seeding node 1
satisfies all four properties. -/
theorem c2_partition_invariant_witness :
    (∀ x ∈ (runOps (⟨[(1, ⟨0, 1, 0, [(2, ⟨1, none, 1⟩)]⟩), (2, ⟨1, 2, 0, []⟩)],
          [], 0, some 0, some 0, 2⟩ : Graph') [Op.infectSeeds [1]]).infected,
        (alookup x (runOps (⟨[(1, ⟨0, 1, 0, [(2, ⟨1, none, 1⟩)]⟩), (2, ⟨1, 2, 0, []⟩)],
          [], 0, some 0, some 0, 2⟩ : Graph') [Op.infectSeeds [1]]).nodes).isSome = true) ∧
    (∀ n, n ∈ susceptibleSet (runOps (⟨[(1, ⟨0, 1, 0, [(2, ⟨1, none, 1⟩)]⟩), (2, ⟨1, 2, 0, []⟩)],
          [], 0, some 0, some 0, 2⟩ : Graph') [Op.infectSeeds [1]])
        ↔ n ∈ nodesSet (runOps (⟨[(1, ⟨0, 1, 0, [(2, ⟨1, none, 1⟩)]⟩), (2, ⟨1, 2, 0, []⟩)],
          [], 0, some 0, some 0, 2⟩ : Graph') [Op.infectSeeds [1]])
          ∧ n ∉ infectedSet (runOps (⟨[(1, ⟨0, 1, 0, [(2, ⟨1, none, 1⟩)]⟩), (2, ⟨1, 2, 0, []⟩)],
          [], 0, some 0, some 0, 2⟩ : Graph') [Op.infectSeeds [1]])) ∧
    (∀ n, n ∈ nodesSet (runOps (⟨[(1, ⟨0, 1, 0, [(2, ⟨1, none, 1⟩)]⟩), (2, ⟨1, 2, 0, []⟩)],
          [], 0, some 0, some 0, 2⟩ : Graph') [Op.infectSeeds [1]])
        ↔ n ∈ infectedSet (runOps (⟨[(1, ⟨0, 1, 0, [(2, ⟨1, none, 1⟩)]⟩), (2, ⟨1, 2, 0, []⟩)],
          [], 0, some 0, some 0, 2⟩ : Graph') [Op.infectSeeds [1]])
          ∨ n ∈ susceptibleSet (runOps (⟨[(1, ⟨0, 1, 0, [(2, ⟨1, none, 1⟩)]⟩), (2, ⟨1, 2, 0, []⟩)],
          [], 0, some 0, some 0, 2⟩ : Graph') [Op.infectSeeds [1]])) ∧
    (∀ n, ¬(n ∈ infectedSet (runOps (⟨[(1, ⟨0, 1, 0, [(2, ⟨1, none, 1⟩)]⟩), (2, ⟨1, 2, 0, []⟩)],
          [], 0, some 0, some 0, 2⟩ : Graph') [Op.infectSeeds [1]])
          ∧ n ∈ susceptibleSet (runOps (⟨[(1, ⟨0, 1, 0, [(2, ⟨1, none, 1⟩)]⟩), (2, ⟨1, 2, 0, []⟩)],
          [], 0, some 0, some 0, 2⟩ : Graph') [Op.infectSeeds [1]]))) :=
  c2_partition_invariant (some [(1, 2)]) ⟨none, none, none⟩ _ [Op.infectSeeds [1]]
    rfl ⟨by intro s hs; fin_cases hs; rfl, trivial⟩

/-- Claim C3: during propagate() the infected set iterated is the snapshot
taken at the start of the tick: a name is infected after the tick exactly
when it was already infected before the tick or some node infected before
the tick owns an edge to it whose transmission draw succeeded; a node that
becomes infected during the tick is never itself asked to propagate within
the same tick. -/
theorem c3_propagate_snapshot (g : Graph') (choice : Nat → Nat → Bool) (x : Nat) :
    x ∈ (propagateCore g choice).infected
      ↔ x ∈ g.infected ∨ ∃ p ∈ g.infected, transmits g.nodes choice p x :=
  propagateFold_mem g.nodes choice g.infected g.infected x

lemma applyOp_stable {g : Graph'} (op : Op) {x : Nat} {n : Node'}
    (h : alookup x g.nodes = some n) :
    ∃ n', alookup x (applyOp g op).nodes = some n'
      ∧ n'.uid = n.uid ∧ n'.name = n.name := by
  cases op with
  | addEdgeSeq parent child tpa t w => exact addEdge_stable parent child none tpa t w h
  | infectSeeds seeds =>
      refine ⟨n, ?_, rfl, rfl⟩
      simp only [applyOp, seedsFold_nodes]
      exact h
  | propagate choice => exact ⟨n, h, rfl, rfl⟩
  | recover dec => exact ⟨n, h, rfl, rfl⟩
  | setInfection cb => exact ⟨n, h, rfl, rfl⟩
  | setRecovery cb => exact ⟨n, h, rfl, rfl⟩

lemma nodup_applyOp {g : Graph'} (h : keysNodup g) (op : Op) :
    keysNodup (applyOp g op) := by
  cases op with
  | addEdgeSeq parent child tpa t w => exact addEdge_nodup h parent child none tpa t w
  | infectSeeds seeds =>
      unfold keysNodup at *
      simp only [applyOp, seedsFold_nodes]
      exact h
  | propagate choice => exact h
  | recover dec => exact h
  | setInfection cb => exact h
  | setRecovery cb => exact h

lemma nodup_runOps {g : Graph'} (h : keysNodup g) :
    ∀ ops : List Op, keysNodup (runOps g ops) := by
  intro ops
  induction ops generalizing g with
  | nil => exact h
  | cons op rest ih => exact ih (nodup_applyOp h op)

/-- Claim C8 counterexample: add_node called with a fresh duplicate
instance of an already-registered name returns its argument, not the
existing registered instance: the registry keeps the instance with uid 0
while the operation returns the distinct instance with uid 1. -/
theorem c8_add_node_returns_argument :
    (add_node (⟨[(1, ⟨0, 1, 0, []⟩)], [], 0, some 0, some 0, 2⟩ : Graph')
        (⟨1, 1, 0, []⟩ : Node')).2 = (⟨1, 1, 0, []⟩ : Node') ∧
    (⟨1, 1, 0, []⟩ : Node') ≠ (⟨0, 1, 0, []⟩ : Node') ∧
    alookup 1 (add_node (⟨[(1, ⟨0, 1, 0, []⟩)], [], 0, some 0, some 0, 2⟩ : Graph')
        (⟨1, 1, 0, []⟩ : Node')).1.nodes = some (⟨0, 1, 0, []⟩ : Node') := by
  refine ⟨rfl, ?_, rfl⟩
  decide

/-- Claim C8 as amended: duplicate names are not an error; the registry
keeps exactly one Node per name and the registered instance at a name
never changes across any operation (same uid, same name); add_node on an
already-registered name leaves the registry unchanged and returns the node
given as its argument — which is the existing instance exactly when the
caller resolved it by name lookup, as the edge-record path does. -/
theorem c8_registry_one_instance_per_name :
    (∀ (g : Graph') (n : Node'), (alookup n.name g.nodes).isSome = true →
      add_node g n = (g, n)) ∧
    (∀ (g : Graph') (op : Op) (x : Nat) (n : Node'), alookup x g.nodes = some n →
      ∃ n', alookup x (applyOp g op).nodes = some n'
        ∧ n'.uid = n.uid ∧ n'.name = n.name) ∧
    (∀ (args : Option (List (Nat × Nat))) (kw : Kwargs) (g0 : Graph'),
      initGraph args kw = .ok g0 → ∀ ops : List Op, keysNodup (runOps g0 ops)) := by
  refine ⟨?_, ?_, ?_⟩
  · intro g n h
    simp [add_node, h]
  · intro g op x n h
    exact applyOp_stable op h
  · intro args kw g0 h ops
    exact nodup_runOps (inv_initGraph h).2.2.2 ops

/-- Witness for the amended C8: re-adding the registered instance of name 1
returns it unchanged; the registered instance of name 1 keeps uid 0 and
name 1 across an operation; the registry of a constructed graph has unique
keys. -/
theorem c8_registry_one_instance_per_name_witness :
    add_node (⟨[(1, ⟨0, 1, 0, []⟩)], [], 0, some 0, some 0, 2⟩ : Graph')
        (⟨0, 1, 0, []⟩ : Node')
      = ((⟨[(1, ⟨0, 1, 0, []⟩)], [], 0, some 0, some 0, 2⟩ : Graph'),
         (⟨0, 1, 0, []⟩ : Node')) ∧
    (∃ n', alookup 1 (applyOp
        (⟨[(1, ⟨0, 1, 0, []⟩)], [], 0, some 0, some 0, 2⟩ : Graph')
        (Op.setInfection 5)).nodes = some n' ∧ n'.uid = 0 ∧ n'.name = 1) ∧
    keysNodup (runOps (⟨[], [], 0, some 0, some 0, 0⟩ : Graph') []) := by
  obtain ⟨h1, h2, h3⟩ := c8_registry_one_instance_per_name
  exact ⟨h1 _ ⟨0, 1, 0, []⟩ (by decide),
    h2 _ (Op.setInfection 5) 1 ⟨0, 1, 0, []⟩ rfl,
    h3 none ⟨none, none, none⟩ _ rfl []⟩

end Graphism
